import Mathlib

/-!
Verification of the resilience layer of the whatsapp-service repository.

Strings are modelled as `List Char`.  The JavaScript string operations the
source relies on (`substring`, `trim`, `lastIndexOf`, the regular expressions
`/[.!?]\s+|\n\n+/` and `/^\[\d+\/\d+\]\n\n/`) are embedded explicitly below.

`src/services/utils/messageSplitter.js` (splitMessage,
splitMessageWithIndicators, queryHaiIndexer) and the WhatsApp send service
(validateMessageLength, sendTextMessage, sendTextMessageWithSplitting,
the inline shouldRetry predicate) are translated from the source.
The circuit-breaker implementation (`circuitBreaker.js`) and the retrying
call wrapper (`retryWithTimeout.js`) are required by the source but are not
part of the repository snapshot; they are modelled from the specification
(see the doc comments on `breakerExecute` and `retryExec`).
-/

/-- Whitespace per the ECMAScript `\s` class and `String.prototype.trim`
(WhiteSpace and LineTerminator code points). -/
def jsIsWs (c : Char) : Bool :=
  c == ' ' || c == '\t' || c == '\n' || c == '\r' ||
  c == Char.ofNat 11 || c == Char.ofNat 12 || c == Char.ofNat 0xA0 ||
  c == Char.ofNat 0x1680 || (0x2000 ≤ c.toNat && c.toNat ≤ 0x200A) ||
  c == Char.ofNat 0x2028 || c == Char.ofNat 0x2029 || c == Char.ofNat 0x202F ||
  c == Char.ofNat 0x205F || c == Char.ofNat 0x3000 || c == Char.ofNat 0xFEFF

/-- JavaScript `String.prototype.trim`: drop whitespace from both ends. -/
def jsTrim (l : List Char) : List Char :=
  ((l.dropWhile jsIsWs).reverse.dropWhile jsIsWs).reverse

/-- Length of the maximal whitespace run at the head of the list
(the greedy `\s+` tail of a regex match). -/
def wsRun : List Char → Nat
  | [] => 0
  | c :: t => if jsIsWs c then wsRun t + 1 else 0

/-- Length of the maximal `'\n'` run at the head of the list
(the greedy `\n+` tail of a `\n\n+` match). -/
def nlRun : List Char → Nat
  | [] => 0
  | c :: t => if c == '\n' then nlRun t + 1 else 0

/-- Characters of the `[.!?]` class in the sentence-boundary regex. -/
def isSentenceEnd (c : Char) : Bool :=
  c == '.' || c == '!' || c == '?'

/-- Length of the match of `/[.!?]\s+|\n\n+/` starting exactly at the head of
the list, `none` when no match starts there.  At a given start position the
alternatives have disjoint first characters, and each `+` is greedy. -/
def matchLen : List Char → Option Nat
  | [] => none
  | [_] => none
  | a :: b :: t =>
    if isSentenceEnd a && jsIsWs b then some (2 + wsRun t)
    else if a == '\n' && b == '\n' then some (2 + nlRun t)
    else none

/-- First (leftmost) match of `/[.!?]\s+|\n\n+/` in the list: the JavaScript
`String.prototype.match` result, as a pair of start index and match length. -/
def findMatch : List Char → Option (Nat × Nat)
  | [] => none
  | a :: t =>
    match matchLen (a :: t) with
    | some len => some (0, len)
    | none =>
      match findMatch t with
      | some (i, len) => some (i + 1, len)
      | none => none

/-- Last (rightmost) match of the sentence-boundary regex in the list.  This
definition follows the WORDS OF THE SPEC ("the latest sentence-ending
boundary"), for comparison against the leftmost search in the source. -/
def findLastMatch : List Char → Option (Nat × Nat)
  | [] => none
  | a :: t =>
    match findLastMatch t with
    | some (i, len) => some (i + 1, len)
    | none =>
      match matchLen (a :: t) with
      | some len => some (0, len)
      | none => none

/-- JavaScript `String.prototype.lastIndexOf` for a single character,
`none` standing for the -1 result. -/
def lastIdxOf (c : Char) : List Char → Option Nat
  | [] => none
  | a :: t =>
    match lastIdxOf c t with
    | some i => some (i + 1)
    | none => if a = c then some 0 else none

/-- Split-point computation of one `splitMessage` loop iteration
(messageSplitter.js lines 36-60), for `remaining` longer than `maxLength`:
take the `maxLength` prefix, search the trailing 200-character window for the
sentence-boundary regex, else fall back to the last line break when it lies
strictly after 80% of `maxLength` (the float comparison
`lineBreakIndex > maxLength * 0.8` is exact at these magnitudes and is
rendered as `4 * maxLength < 5 * lineBreakIndex`), else cut at `maxLength`. -/
def computeSplitIndex (remaining : List Char) (maxLength : Nat) : Nat :=
  let chunk := remaining.take maxLength
  let lookback := min 200 chunk.length
  let searchArea := chunk.drop (chunk.length - lookback)
  match findMatch searchArea with
  | some (idx, len) => chunk.length - lookback + idx + len
  | none =>
    match lastIdxOf '\n' chunk with
    | some lbi => if 4 * maxLength < 5 * lbi then lbi + 1 else maxLength
    | none => maxLength

/-- Split-point computation following the WORDS OF THE SPEC/claim instead of
the source: the LATEST sentence boundary in the window, and the line-break
fallback accepted when it lies AT OR AFTER 80% of `maxLength`. -/
def claimSplitIndex (remaining : List Char) (maxLength : Nat) : Nat :=
  let chunk := remaining.take maxLength
  let lookback := min 200 chunk.length
  let searchArea := chunk.drop (chunk.length - lookback)
  match findLastMatch searchArea with
  | some (idx, len) => chunk.length - lookback + idx + len
  | none =>
    match lastIdxOf '\n' chunk with
    | some lbi => if 4 * maxLength ≤ 5 * lbi then lbi + 1 else maxLength
    | none => maxLength

/-- Decimal digit character. -/
def digitChar : Nat → Char
  | 0 => '0' | 1 => '1' | 2 => '2' | 3 => '3' | 4 => '4'
  | 5 => '5' | 6 => '6' | 7 => '7' | 8 => '8' | _ => '9'

/-- Fuel-driven helper for `natDigits`; the fuel only bounds the recursion
depth (one digit is produced per unit) and `n + 1` units always suffice. -/
def natDigitsAux : Nat → Nat → List Char
  | _, 0 => []
  | n, fuel + 1 =>
    if n < 10 then [digitChar n]
    else natDigitsAux (n / 10) fuel ++ [digitChar (n % 10)]

/-- Decimal representation of a natural number, as rendered by JavaScript
template-string interpolation of a nonnegative integer. -/
def natDigits (n : Nat) : List Char :=
  natDigitsAux n (n + 1)

/-- Digit class of the regex `\d`. -/
def isDigitChar (c : Char) : Bool :=
  48 ≤ c.toNat && c.toNat ≤ 57

/-- Maximal digit run at the head of the list, with the rest. -/
def takeDigits : List Char → List Char × List Char
  | [] => ([], [])
  | c :: t =>
    if isDigitChar c then
      let p := takeDigits t
      (c :: p.1, p.2)
    else ([], c :: t)

/-- Continuation indicator `` `[${chunkNumber}/${totalChunks}]\n\n` ``
prepended by splitMessage (line 68). -/
def headerI (i total : Nat) : List Char :=
  '[' :: (natDigits i ++ '/' :: (natDigits total ++ ']' :: '\n' :: '\n' :: []))

/-- Page indicator `` `[Part ${index + 1}/${chunks.length}]\n\n` `` prepended
by splitMessageWithIndicators (line 97). -/
def partHeader (i total : Nat) : List Char :=
  '[' :: 'P' :: 'a' :: 'r' :: 't' :: ' ' ::
    (natDigits i ++ '/' :: (natDigits total ++ ']' :: '\n' :: '\n' :: []))

/-- Parse of the anchored regex `/^\[\d+\/\d+\]\n\n/` (the replace pattern of
splitMessageWithIndicators, line 96): on success, the text after the match. -/
def parseIndicator (l : List Char) : Option (List Char) :=
  match l with
  | c0 :: rest =>
    if c0 = '[' then
      let p1 := takeDigits rest
      if p1.1 = [] then none
      else
        match p1.2 with
        | c1 :: r2 =>
          if c1 = '/' then
            let p2 := takeDigits r2
            if p2.1 = [] then none
            else
              match p2.2 with
              | c2 :: c3 :: c4 :: r4 =>
                if c2 = ']' ∧ c3 = '\n' ∧ c4 = '\n' then some r4 else none
              | _ => none
          else none
        | _ => none
    else none
  | _ => none

/-- Strip of one leading indicator: `chunk.replace` with the anchored
indicator regex and the empty replacement string (line 96). -/
def stripIndicator (l : List Char) : List Char :=
  (parseIndicator l).getD l

/-- Parse of a leading `[Part <digits>/<digits>]` header (the format emitted
by splitMessageWithIndicators), without requiring the blank line. -/
def parsePartLoose (l : List Char) : Option (List Char) :=
  match l with
  | c0 :: c1 :: c2 :: c3 :: c4 :: c5 :: rest =>
    if c0 = '[' ∧ c1 = 'P' ∧ c2 = 'a' ∧ c3 = 'r' ∧ c4 = 't' ∧ c5 = ' ' then
      let p1 := takeDigits rest
      if p1.1 = [] then none
      else
        match p1.2 with
        | d1 :: r2 =>
          if d1 = '/' then
            let p2 := takeDigits r2
            if p2.1 = [] then none
            else
              match p2.2 with
              | d2 :: r4 => if d2 = ']' then some r4 else none
              | _ => none
          else none
        | _ => none
    else none
  | _ => none

/-- Parse of a full leading `[Part <digits>/<digits>]\n\n` header. -/
def parsePart (l : List Char) : Option (List Char) :=
  match parsePartLoose l with
  | some (c1 :: c2 :: r) => if c1 = '\n' ∧ c2 = '\n' then some r else none
  | _ => none

/-- Strip one leading `[Part i/N]\n\n` header when present — the reading of
"chunk body (header stripped)" used by the properties of the spec. -/
def stripPart (l : List Char) : List Char :=
  (parsePart l).getD l

/-- Check that a chunk begins with a `[Part i/N]\n\n` header immediately
followed by a second `[Part i/N]` header: a chunk carrying two headers. -/
def hasTwoPartHeaders (l : List Char) : Bool :=
  match parsePart l with
  | some rest => (parsePartLoose rest).isSome
  | none => false

/-- While loop of splitMessage (messageSplitter.js lines 29-76).  `msgLen` is
the length of the original message (used for `totalChunks`), `chunkIdx` the
number of chunks already pushed, and `fuel` an upper bound on the number of
iterations: the loop consumes at least one character of `remaining` per
iteration whenever `1 ≤ maxLength`, so `fuel := remaining.length` is enough.
(For `maxLength = 0` the JavaScript loop does not terminate; the embedding
returns when the fuel runs out.) -/
def splitLoop (msgLen maxLength : Nat) : Nat → List Char → Nat → List (List Char)
  | 0, _, _ => []
  | fuel + 1, remaining, chunkIdx =>
    if remaining = [] then []
    else if remaining.length ≤ maxLength then [remaining]
    else
      let si := computeSplitIndex remaining maxLength
      let chunkText := jsTrim (remaining.take si)
      let totalChunks := (msgLen + maxLength - 1) / maxLength
      (if 1 < totalChunks then headerI (chunkIdx + 1) totalChunks ++ chunkText
       else chunkText)
        :: splitLoop msgLen maxLength fuel (jsTrim (remaining.drop si)) (chunkIdx + 1)

/-- splitMessage (messageSplitter.js lines 16-79).  The `!message` guard
returns `[]` for the empty string; a message that fits is returned whole;
otherwise the splitting loop runs.  `totalChunks = Math.ceil(len/maxLength)`
is rendered as `(len + maxLength - 1) / maxLength` inside the loop. -/
def splitMessage (message : List Char) (maxLength : Nat) : List (List Char) :=
  if message = [] then []
  else if message.length ≤ maxLength then [message]
  else splitLoop message.length maxLength message.length message 0

/-- Companion to `splitLoop` that records the chunk BODIES: the trimmed text
segments before any continuation indicator is prepended. -/
def splitBodiesLoop (maxLength : Nat) : Nat → List Char → List (List Char)
  | 0, _ => []
  | fuel + 1, remaining =>
    if remaining = [] then []
    else if remaining.length ≤ maxLength then [remaining]
    else
      let si := computeSplitIndex remaining maxLength
      jsTrim (remaining.take si)
        :: splitBodiesLoop maxLength fuel (jsTrim (remaining.drop si))

/-- Chunk bodies of `splitMessage`: same cut points, no indicators. -/
def splitBodies (message : List Char) (maxLength : Nat) : List (List Char) :=
  if message = [] then []
  else if message.length ≤ maxLength then [message]
  else splitBodiesLoop maxLength message.length message

/-- Map of splitMessageWithIndicators over the chunk list (lines 94-98):
chunk at index `i` becomes `[Part i+1/total]\n\n` prepended to the chunk with
one leading `[d/d]\n\n` indicator stripped. -/
def addPartHeaders (total : Nat) : Nat → List (List Char) → List (List Char)
  | _, [] => []
  | i, c :: rest =>
    (partHeader (i + 1) total ++ stripIndicator c) :: addPartHeaders total (i + 1) rest

/-- splitMessageWithIndicators (messageSplitter.js lines 86-99).  The source
always calls `splitMessage(message)` with the default `maxLength = 4096`;
the bound is kept as a parameter here and instantiated with 4096 at the
call sites that model the source. -/
def splitMessageWithIndicators (message : List Char) (maxLength : Nat) : List (List Char) :=
  let chunks := splitMessage message maxLength
  if chunks.length ≤ 1 then chunks
  else addPartHeaders chunks.length 0 chunks

/-- Reference rendering of a 1-indexed numbered chunk sequence: element `i`
(counting from `start`) is `[Part i/total]\n\n` followed by its body. -/
def numberedFrom (total : Nat) : Nat → List (List Char) → List (List Char)
  | _, [] => []
  | i, b :: bs => (partHeader i total ++ b) :: numberedFrom total (i + 1) bs

/-- Proposition that `text` is exactly the given bodies, in order, interleaved
with (possibly empty) runs of whitespace — "reconstructs the text up to
whitespace trimmed at the cut points". -/
inductive WsInterleaved : List Char → List (List Char) → Prop
  | nil (w : List Char) (hw : ∀ c ∈ w, jsIsWs c = true) : WsInterleaved w []
  | cons (w b t : List Char) (bs : List (List Char))
      (hw : ∀ c ∈ w, jsIsWs c = true) (ht : WsInterleaved t bs) :
      WsInterleaved (w ++ b ++ t) (b :: bs)

/-- Error values thrown by the send service, as their message text. -/
abbrev ErrMsg := List Char

/-- Message text of the error thrown for a missing or empty message. -/
def emptyMsgErr : ErrMsg :=
  "Message must be a non-empty string".toList

/-- Message text of the error thrown for an over-long message. -/
def tooLongErr : ErrMsg :=
  "Message length exceeds WhatsApp limit of 4096 characters".toList

/-- Message text of the error thrown when credentials are missing. -/
def credsErr : ErrMsg :=
  "WhatsApp credentials not configured".toList

/-- validateMessageLength (whatsappService, part_000 lines 26-38): `some e`
models a throw.  The falsy-or-non-string guard reduces to the emptiness
test once messages are strings. -/
def validateMessageLength (message : List Char) : Option ErrMsg :=
  if message = [] then some emptyMsgErr
  else if 4096 < message.length then some tooLongErr
  else none

/-- Observable actions of the send pipeline: an HTTP request to the WhatsApp
API carrying a message body, or a `setTimeout` delay in milliseconds. -/
inductive ChunkEvent
  | http (body : List Char)
  | delay (ms : Nat)
deriving DecidableEq

/-- sendTextMessage (part_000 lines 45-102), over an abstract transport
`http` that returns the outcome of the `fetchWithRetry` call plus response
check for a given body.  Returns the issued HTTP requests and the result;
`Except.error` models a rejected promise.  Credentials are checked first,
then the length guard runs, and only then is the request issued. -/
def sendTextMessage (credsOk : Bool) (message : List Char)
    (http : List Char → Except ErrMsg Unit) : List ChunkEvent × Except ErrMsg Unit :=
  if credsOk = false then ([], Except.error credsErr)
  else
    match validateMessageLength message with
    | some e => ([], Except.error e)
    | none =>
      match http message with
      | Except.ok _ => ([ChunkEvent.http message], Except.ok ())
      | Except.error e => ([ChunkEvent.http message], Except.error e)

/-- Chunk-sending for loop of sendTextMessageWithSplitting (part_000 lines
126-133): send each chunk through sendTextMessage; a rejection aborts the
loop and propagates; a 500 ms delay follows every chunk except the last. -/
def sendLoop (credsOk : Bool) (http : List Char → Except ErrMsg Unit) :
    List (List Char) → List ChunkEvent × Except ErrMsg Unit
  | [] => ([], Except.ok ())
  | [c] => sendTextMessage credsOk c http
  | c :: d :: rest =>
    let p := sendTextMessage credsOk c http
    match p.2 with
    | Except.error e => (p.1, Except.error e)
    | Except.ok _ =>
      let q := sendLoop credsOk http (d :: rest)
      (p.1 ++ ChunkEvent.delay 500 :: q.1, q.2)

/-- sendTextMessageWithSplitting (part_000 lines 109-134).  `enabled` is the
`ENABLE_MESSAGE_SPLITTING` flag; the channel limit is the hard-coded 4096 of
the source.  A fitting (or splitting-disabled) message goes through the plain send;
a single-chunk split likewise; otherwise the chunks are sent sequentially. -/
def sendTextMessageWithSplitting (enabled credsOk : Bool) (message : List Char)
    (http : List Char → Except ErrMsg Unit) : List ChunkEvent × Except ErrMsg Unit :=
  if enabled = false ∨ message.length ≤ 4096 then sendTextMessage credsOk message http
  else
    let chunks := splitMessageWithIndicators message 4096
    if chunks.length = 1 then sendTextMessage credsOk (chunks.headD []) http
    else sendLoop credsOk http chunks

/-- Expected event trace of sending a chunk sequence: the trace of each chunk
in order, a 500 ms delay between consecutive chunks, none after the last. -/
def delayedTraces (f : List Char → List ChunkEvent) : List (List Char) → List ChunkEvent
  | [] => []
  | [c] => f c
  | c :: d :: rest => f c ++ ChunkEvent.delay 500 :: delayedTraces f (d :: rest)

/-- Retry predicate passed by sendTextMessage to fetchWithRetry (part_000
lines 77-86): an error argument, when present, is inspected first. -/
structure JsErr where
  name : List Char
  code : List Char
deriving DecidableEq

/-- Error name and codes tested by the retry predicate. -/
def abortErrName : List Char :=
  "AbortError".toList

/-- Code `ECONNREFUSED`. -/
def econnRefused : List Char :=
  "ECONNREFUSED".toList

/-- Code `ETIMEDOUT`. -/
def etimedOut : List Char :=
  "ETIMEDOUT".toList

/-- shouldRetry (part_000 lines 77-86): `if (error)` retry on abort /
connection-refused / connection-timed-out; `if (response)` retry on 429 and
5xx; otherwise false.  A response is represented by its status code. -/
def shouldRetry (error : Option JsErr) (response : Option Nat) : Bool :=
  match error with
  | some e => e.name == abortErrName || e.code == econnRefused || e.code == etimedOut
  | none =>
    match response with
    | some status => status == 429 || (decide (500 ≤ status) && decide (status < 600))
    | none => false

/-- States of the circuit breaker (spec §4.2 / BreakerState). -/
inductive BreakerState
  | closed
  | opened
  | halfOpen
deriving DecidableEq

/-- Mutable data of one breaker instance (spec §3 BreakerConfig/BreakerState):
current state, counters, and the time the breaker last entered OPEN. -/
structure BreakerData where
  state : BreakerState
  failures : Nat
  successes : Nat
  openedAt : Nat
deriving DecidableEq

/-- Modelled from the spec: the circuit-breaker implementation
(`circuitBreaker.js`, `createCircuitBreaker`) is required by
haiIndexerService but is not under `src/`; this follows spec §4.2.
`execute(operation, fallback)` with the breaker OPEN and `resetTimeoutMs` not
yet elapsed short-circuits to the fallback without dispatching the operation;
in every other state the operation is dispatched, its success value is
returned, and a failure (`none`) yields the fallback instead of an exception.
The result records the returned value and whether the protected operation was
invoked. -/
def breakerExecute {α : Type} (resetTimeoutMs : Nat) (b : BreakerData) (now : Nat)
    (op : Option α) (fallback : α) : α × Bool :=
  if b.state = BreakerState.opened then
    if b.openedAt + resetTimeoutMs ≤ now then
      match op with
      | some a => (a, true)
      | none => (fallback, true)
    else (fallback, false)
  else
    match op with
    | some a => (a, true)
    | none => (fallback, true)

/-- Answer object returned by queryHaiIndexer. -/
structure QueryResult where
  answer : List Char
deriving DecidableEq

/-- Text of the fallback answer returned when the HaiIndexer circuit is open
(messageSplitter.js lines 186-190). -/
def fallbackBusyText : List Char :=
  "Sorry, the system is currently busy. Please try again in a few moments.".toList

/-- Fallback answer object of queryHaiIndexer. -/
def fallbackBusy : QueryResult :=
  QueryResult.mk fallbackBusyText

/-- Message of the error thrown when `HAIINDEXER_API_URL` is unset. -/
def apiUrlErr : ErrMsg :=
  "HAIINDEXER_API_URL is not configured".toList

/-- queryHaiIndexer (messageSplitter.js file, haiIndexerService section,
lines 136-192): throw when the API URL is unconfigured, otherwise run the
backend query under the circuit breaker with the busy-message fallback.  The
body of the protected operation (URL construction, fetchWithRetry, response-format
handling) is abstracted into its produced result `backendOutcome`, since the
claims settled here concern the short-circuit path on which it is never
invoked; the Boolean in the result records whether it was invoked. -/
def queryHaiIndexer (apiUrlConfigured : Bool) (resetTimeoutMs : Nat)
    (b : BreakerData) (now : Nat) (backendOutcome : Option QueryResult) :
    Except ErrMsg (QueryResult × Bool) :=
  if apiUrlConfigured = false then Except.error apiUrlErr
  else Except.ok (breakerExecute resetTimeoutMs b now backendOutcome fallbackBusy)

/-- Observable actions of the retrying call wrapper: an invocation of the
operation (with its 0-based attempt index) or a retry delay. -/
inductive RetryEvent
  | attempt (i : Nat)
  | retryDelay (ms : Nat)
deriving DecidableEq

/-- Modelled from the spec: the retrying call wrapper (`retryWithTimeout.js`,
`fetchWithRetry`) is required by the source but is not under `src/`; this
follows spec §4.1.  `outcome k` is the settled result of the `k`-th
invocation of the operation (a timeout counting as a failure).  On a failure
that the policy deems retryable, while attempts remain, the wrapper waits
`retryDelayMs` and re-invokes; otherwise the last failure propagates.  The
trace of invocations and delays is returned with the result. -/
def retryExecAux {ε α : Type} (retryDelayMs : Nat) (retryable : ε → Bool)
    (outcome : Nat → Except ε α) : Nat → Nat → List RetryEvent × Except ε α
  | k, remainingRetries =>
    match outcome k with
    | Except.ok a => ([RetryEvent.attempt k], Except.ok a)
    | Except.error e =>
      match remainingRetries with
      | 0 => ([RetryEvent.attempt k], Except.error e)
      | r + 1 =>
        if retryable e then
          let p := retryExecAux retryDelayMs retryable outcome (k + 1) r
          (RetryEvent.attempt k :: RetryEvent.retryDelay retryDelayMs :: p.1, p.2)
        else ([RetryEvent.attempt k], Except.error e)

/-- Top-level entry of the retrying call wrapper: first attempt has index 0
and `maxRetries` retries remain. -/
def retryExec {ε α : Type} (maxRetries retryDelayMs : Nat) (retryable : ε → Bool)
    (outcome : Nat → Except ε α) : List RetryEvent × Except ε α :=
  retryExecAux retryDelayMs retryable outcome 0 maxRetries

/-- Expected trace of an operation that fails on every attempt: attempts
`k, k+1, …, k+r` with a delay after each attempt except the last. -/
def failTrace (d : Nat) : Nat → Nat → List RetryEvent
  | k, 0 => [RetryEvent.attempt k]
  | k, r + 1 => RetryEvent.attempt k :: RetryEvent.retryDelay d :: failTrace d (k + 1) r

/-- Number of operation invocations in a retry trace. -/
def countAttempts (evs : List RetryEvent) : Nat :=
  evs.countP fun ev =>
    match ev with
    | RetryEvent.attempt _ => true
    | _ => false

/-- Concrete message containing a `[1/2]`-style marker of its own: input on
which the reconstruction property of the splitter fails. -/
def cexC2 : List Char :=
  "aaaaaaaaaa[1/2]\n\nbb".toList

/-- Concrete message with two sentence boundaries inside the lookback
window: the source cuts at the first one, the spec says the latest. -/
def cexC4a : List Char :=
  "a. b. cccccc".toList

/-- Concrete message whose only line break sits exactly at 80% of
`maxLength = 10`: the source rejects it (strict >), the spec accepts it. -/
def cexC4b : List Char :=
  "abcdefgh\nxyz".toList

/-- Concrete message that already carries a `[Part 1/2]` header from an
earlier split pass. -/
def cexC5 : List Char :=
  "[Part 1/2]\n\n".toList ++ List.replicate 28 'a'

/-- Concrete over-long message of 25 characters, split with
`maxLength = 10`. -/
def msg25 : List Char :=
  List.replicate 25 'a'

/-- Concrete message one character over the 4096 WhatsApp limit. -/
def msg4097 : List Char :=
  List.replicate 4097 'a'

/-- Concrete message at twice the 4096 WhatsApp limit. -/
def msg8192 : List Char :=
  List.replicate 8192 'a'

/-- Transport that accepts every request. -/
def httpOk : List Char → Except ErrMsg Unit :=
  fun _ => Except.ok ()

/-! ### Digit and header parsing lemmas -/

theorem digitChar_ge_nine (n : Nat) : digitChar (n + 9) = '9' := rfl

theorem isDigitChar_digitChar (d : Nat) : isDigitChar (digitChar d) = true := by
  rcases Nat.lt_or_ge d 9 with h | h
  · interval_cases d <;> decide
  · obtain ⟨n, rfl⟩ := Nat.exists_eq_add_of_le h
    rw [Nat.add_comm, digitChar_ge_nine]
    decide

theorem natDigitsAux_all_digits (fuel : Nat) :
    ∀ n, ∀ c ∈ natDigitsAux n fuel, isDigitChar c = true := by
  induction fuel with
  | zero => intro n c hc; simp [natDigitsAux] at hc
  | succ fuel ih =>
    intro n c hc
    rw [natDigitsAux] at hc
    split at hc
    · rw [List.mem_singleton] at hc
      subst hc
      exact isDigitChar_digitChar n
    · rw [List.mem_append] at hc
      rcases hc with hc | hc
      · exact ih (n / 10) c hc
      · rw [List.mem_singleton] at hc
        subst hc
        exact isDigitChar_digitChar (n % 10)

theorem natDigits_all_digits (n : Nat) : ∀ c ∈ natDigits n, isDigitChar c = true :=
  natDigitsAux_all_digits (n + 1) n

theorem natDigitsAux_ne_nil (fuel n : Nat) : natDigitsAux n (fuel + 1) ≠ [] := by
  rw [natDigitsAux]
  split
  · simp
  · simp

theorem natDigits_ne_nil (n : Nat) : natDigits n ≠ [] :=
  natDigitsAux_ne_nil n n

theorem takeDigits_append (ds : List Char) (hds : ∀ c ∈ ds, isDigitChar c = true)
    (x : Char) (hx : isDigitChar x = false) (r : List Char) :
    takeDigits (ds ++ x :: r) = (ds, x :: r) := by
  induction ds with
  | nil => simp [takeDigits, hx]
  | cons a t ih =>
    have ha : isDigitChar a = true := hds a (by simp)
    have ht : ∀ c ∈ t, isDigitChar c = true := fun c hc => hds c (by simp [hc])
    simp only [List.cons_append, takeDigits, ha, if_true, List.append_eq, ih ht]

theorem parseIndicator_header (i total : Nat) (s : List Char) :
    parseIndicator (headerI i total ++ s) = some s := by
  have h1 : isDigitChar '/' = false := by decide
  have h2 : isDigitChar ']' = false := by decide
  have e1 : headerI i total ++ s =
      '[' :: (natDigits i ++ '/' :: (natDigits total ++ ']' :: '\n' :: '\n' :: s)) := by
    simp [headerI]
  rw [e1, parseIndicator]
  rw [if_pos rfl]
  rw [takeDigits_append (natDigits i) (natDigits_all_digits i) '/' h1]
  dsimp only
  rw [if_neg (natDigits_ne_nil i), if_pos rfl]
  rw [takeDigits_append (natDigits total) (natDigits_all_digits total) ']' h2]
  dsimp only
  rw [if_neg (natDigits_ne_nil total)]
  rw [if_pos (show ']' = ']' ∧ '\n' = '\n' ∧ '\n' = '\n' from ⟨rfl, rfl, rfl⟩)]

theorem stripIndicator_header (i total : Nat) (s : List Char) :
    stripIndicator (headerI i total ++ s) = s := by
  rw [stripIndicator, parseIndicator_header]
  rfl

/-! ### Trim lemmas -/

theorem jsTrim_decomp (l : List Char) :
    ∃ w1 w2, (∀ c ∈ w1, jsIsWs c = true) ∧ (∀ c ∈ w2, jsIsWs c = true) ∧
      l = w1 ++ jsTrim l ++ w2 := by
  refine ⟨l.takeWhile jsIsWs, ((l.dropWhile jsIsWs).reverse.takeWhile jsIsWs).reverse,
    fun c hc => List.mem_takeWhile_imp hc,
    fun c hc => List.mem_takeWhile_imp (List.mem_reverse.mp hc), ?_⟩
  conv_lhs => rw [← List.takeWhile_append_dropWhile jsIsWs l]
  rw [List.append_assoc]
  congr 1
  conv_lhs =>
    rw [← List.reverse_reverse (l.dropWhile jsIsWs),
      ← List.takeWhile_append_dropWhile jsIsWs (l.dropWhile jsIsWs).reverse]
  rw [List.reverse_append]
  rfl

theorem jsTrim_length_le (l : List Char) : (jsTrim l).length ≤ l.length := by
  obtain ⟨w1, w2, _, _, h⟩ := jsTrim_decomp l
  conv_rhs => rw [h]
  simp [List.length_append]
  omega

/-! ### Regex search characterization -/

theorem matchLen_ge_two {l : List Char} {len : Nat} (h : matchLen l = some len) : 2 ≤ len := by
  rcases l with _ | ⟨a, _ | ⟨b, t⟩⟩
  · simp [matchLen] at h
  · simp [matchLen] at h
  · rw [matchLen] at h
    split at h
    · injection h with h
      omega
    · split at h
      · injection h with h
        omega
      · cases h

theorem findMatch_eq_some {l : List Char} {i len : Nat}
    (h : findMatch l = some (i, len)) :
    matchLen (l.drop i) = some len ∧ ∀ j < i, matchLen (l.drop j) = none := by
  induction l generalizing i with
  | nil => simp [findMatch] at h
  | cons a t ih =>
    rw [findMatch] at h
    cases hm : matchLen (a :: t) with
    | some m =>
      rw [hm] at h
      injection h with h
      injection h with h1 h2
      subst h1
      subst h2
      exact ⟨hm, by omega⟩
    | none =>
      rw [hm] at h
      cases hf : findMatch t with
      | none => rw [hf] at h; cases h
      | some p =>
        obtain ⟨i', len'⟩ := p
        rw [hf] at h
        injection h with h
        injection h with h1 h2
        subst h1
        subst h2
        obtain ⟨g1, g2⟩ := ih hf
        refine ⟨by simpa using g1, ?_⟩
        intro j hj
        cases j with
        | zero => simpa using hm
        | succ j' => simpa using g2 j' (by omega)

theorem findMatch_eq_none {l : List Char} (h : findMatch l = none) :
    ∀ j, matchLen (l.drop j) = none := by
  induction l with
  | nil => intro j; simp [matchLen]
  | cons a t ih =>
    rw [findMatch] at h
    cases hm : matchLen (a :: t) with
    | some m => rw [hm] at h; cases h
    | none =>
      rw [hm] at h
      cases hf : findMatch t with
      | some p => rw [hf] at h; cases h
      | none =>
        intro j
        cases j with
        | zero => simpa using hm
        | succ j' => simpa using ih hf j'

theorem lastIdxOf_eq_none {c : Char} {l : List Char} (h : lastIdxOf c l = none) :
    ∀ j : Nat, l[j]? ≠ some c := by
  induction l with
  | nil => intro j; simp
  | cons a t ih =>
    rw [lastIdxOf] at h
    cases ht : lastIdxOf c t with
    | some k => rw [ht] at h; cases h
    | none =>
      rw [ht] at h
      by_cases hac : a = c
      · rw [if_pos hac] at h; cases h
      · intro j
        cases j with
        | zero =>
          simp only [List.getElem?_cons_zero]
          intro he
          injection he with he
          exact hac he
        | succ j' => simpa using ih ht j'

theorem lastIdxOf_eq_some {c : Char} {l : List Char} {i : Nat}
    (h : lastIdxOf c l = some i) :
    l[i]? = some c ∧ ∀ j : Nat, i < j → l[j]? ≠ some c := by
  induction l generalizing i with
  | nil => simp [lastIdxOf] at h
  | cons a t ih =>
    rw [lastIdxOf] at h
    cases ht : lastIdxOf c t with
    | some k =>
      rw [ht] at h
      injection h with h
      subst h
      obtain ⟨h1, h2⟩ := ih ht
      refine ⟨by simpa using h1, ?_⟩
      intro j hj
      cases j with
      | zero => omega
      | succ j' => simpa using h2 j' (by omega)
    | none =>
      rw [ht] at h
      by_cases hac : a = c
      · rw [if_pos hac] at h
        injection h with h
        subst h
        subst hac
        refine ⟨by simp, ?_⟩
        intro j hj
        cases j with
        | zero => omega
        | succ j' => simpa using lastIdxOf_eq_none ht j'
      · rw [if_neg hac] at h
        cases h

/-! ### Split-index and interleaving lemmas -/

theorem computeSplitIndex_pos (remaining : List Char) (maxLength : Nat)
    (h1 : 1 ≤ maxLength) : 1 ≤ computeSplitIndex remaining maxLength := by
  rw [computeSplitIndex]
  cases hF : findMatch ((remaining.take maxLength).drop
      ((remaining.take maxLength).length - min 200 (remaining.take maxLength).length)) with
  | some p =>
    obtain ⟨i, len⟩ := p
    have h2 := matchLen_ge_two (findMatch_eq_some hF).1
    dsimp only
    omega
  | none =>
    cases hL : lastIdxOf '\n' (remaining.take maxLength) with
    | some lbi =>
      dsimp only
      split <;> omega
    | none =>
      dsimp only
      omega

theorem wsInterleaved_absorb {t : List Char} {bs : List (List Char)}
    (h : WsInterleaved t bs) :
    ∀ u v : List Char, (∀ c ∈ u, jsIsWs c = true) → (∀ c ∈ v, jsIsWs c = true) →
      WsInterleaved (u ++ t ++ v) bs := by
  induction h with
  | nil w hw =>
    intro u v hu hv
    refine WsInterleaved.nil (u ++ w ++ v) ?_
    intro c hc
    simp only [List.mem_append] at hc
    rcases hc with (hc | hc) | hc
    · exact hu c hc
    · exact hw c hc
    · exact hv c hc
  | cons w b t' bs' hw ht ih =>
    intro u v hu hv
    have e : u ++ (w ++ b ++ t') ++ v = (u ++ w) ++ b ++ (t' ++ v) := by
      simp [List.append_assoc]
    rw [e]
    refine WsInterleaved.cons (u ++ w) b (t' ++ v) bs' ?_ ?_
    · intro c hc
      simp only [List.mem_append] at hc
      rcases hc with hc | hc
      · exact hu c hc
      · exact hw c hc
    · simpa using ih [] v (by simp) hv

theorem wsInterleaved_filter {t : List Char} {bs : List (List Char)}
    (h : WsInterleaved t bs) :
    t.filter (fun c => !jsIsWs c) = bs.flatten.filter (fun c => !jsIsWs c) := by
  induction h with
  | nil w hw =>
    simp only [List.flatten_nil, List.filter_nil]
    rw [List.filter_eq_nil_iff]
    intro a ha
    simp [hw a ha]
  | cons w b t' bs' hw ht ih =>
    have hwnil : w.filter (fun c => !jsIsWs c) = [] := by
      rw [List.filter_eq_nil_iff]
      intro a ha
      simp [hw a ha]
    simp [List.filter_append, hwnil, ih]

theorem splitBodiesLoop_interleaved (maxLength : Nat) (h1 : 1 ≤ maxLength) :
    ∀ fuel remaining, remaining.length ≤ fuel →
      WsInterleaved remaining (splitBodiesLoop maxLength fuel remaining) := by
  intro fuel
  induction fuel with
  | zero =>
    intro remaining hr
    have hnil : remaining = [] := by
      cases remaining with
      | nil => rfl
      | cons a t => simp at hr
    subst hnil
    exact WsInterleaved.nil [] (by simp)
  | succ fuel ih =>
    intro remaining hr
    rw [splitBodiesLoop]
    by_cases hre : remaining = []
    · rw [if_pos hre]
      subst hre
      exact WsInterleaved.nil [] (by simp)
    · rw [if_neg hre]
      by_cases hle : remaining.length ≤ maxLength
      · rw [if_pos hle]
        have h := WsInterleaved.cons [] remaining [] []
          (by simp) (WsInterleaved.nil [] (by simp))
        simpa using h
      · rw [if_neg hle]
        dsimp only
        have hsipos : 1 ≤ computeSplitIndex remaining maxLength :=
          computeSplitIndex_pos remaining maxLength h1
        obtain ⟨w1, w2, hw1, hw2, e1⟩ :=
          jsTrim_decomp (remaining.take (computeSplitIndex remaining maxLength))
        obtain ⟨w3, w4, hw3, hw4, e2⟩ :=
          jsTrim_decomp (remaining.drop (computeSplitIndex remaining maxLength))
        have hfuel : (jsTrim (remaining.drop (computeSplitIndex remaining maxLength))).length ≤ fuel := by
          have hd := jsTrim_length_le (remaining.drop (computeSplitIndex remaining maxLength))
          rw [List.length_drop] at hd
          omega
        have habs := wsInterleaved_absorb (ih _ hfuel) (w2 ++ w3) w4
          (by
            intro c hc
            simp only [List.mem_append] at hc
            rcases hc with hc | hc
            · exact hw2 c hc
            · exact hw3 c hc)
          hw4
        have main := WsInterleaved.cons w1
          (jsTrim (remaining.take (computeSplitIndex remaining maxLength)))
          ((w2 ++ w3) ++ jsTrim (remaining.drop (computeSplitIndex remaining maxLength)) ++ w4)
          (splitBodiesLoop maxLength fuel (jsTrim (remaining.drop (computeSplitIndex remaining maxLength))))
          hw1 habs
        have e3 : w1 ++ jsTrim (remaining.take (computeSplitIndex remaining maxLength)) ++
            ((w2 ++ w3) ++ jsTrim (remaining.drop (computeSplitIndex remaining maxLength)) ++ w4)
            = remaining := by
          calc w1 ++ jsTrim (remaining.take (computeSplitIndex remaining maxLength)) ++
              ((w2 ++ w3) ++ jsTrim (remaining.drop (computeSplitIndex remaining maxLength)) ++ w4)
              = (w1 ++ jsTrim (remaining.take (computeSplitIndex remaining maxLength)) ++ w2) ++
                (w3 ++ jsTrim (remaining.drop (computeSplitIndex remaining maxLength)) ++ w4) := by
                simp [List.append_assoc]
            _ = remaining.take (computeSplitIndex remaining maxLength) ++
                remaining.drop (computeSplitIndex remaining maxLength) := by
                rw [← e1, ← e2]
            _ = remaining := List.take_append_drop _ remaining
        rw [e3] at main
        exact main

theorem splitLoop_length (msgLen maxLength : Nat) :
    ∀ fuel remaining chunkIdx,
      (splitLoop msgLen maxLength fuel remaining chunkIdx).length =
        (splitBodiesLoop maxLength fuel remaining).length := by
  intro fuel
  induction fuel with
  | zero => intro r i; rfl
  | succ fuel ih =>
    intro r i
    rw [splitLoop, splitBodiesLoop]
    by_cases h1 : r = []
    · rw [if_pos h1, if_pos h1]
    · rw [if_neg h1, if_neg h1]
      by_cases h2 : r.length ≤ maxLength
      · rw [if_pos h2, if_pos h2]
      · rw [if_neg h2, if_neg h2]
        dsimp only
        simp [ih]

theorem splitLoop_map_strip (msgLen maxLength : Nat)
    (hT : 1 < (msgLen + maxLength - 1) / maxLength) :
    ∀ fuel remaining chunkIdx,
      (∀ b ∈ splitBodiesLoop maxLength fuel remaining, parseIndicator b = none) →
      (splitLoop msgLen maxLength fuel remaining chunkIdx).map stripIndicator =
        splitBodiesLoop maxLength fuel remaining := by
  intro fuel
  induction fuel with
  | zero => intro r i _; rfl
  | succ fuel ih =>
    intro r i hH
    rw [splitLoop, splitBodiesLoop]
    by_cases h1 : r = []
    · rw [if_pos h1, if_pos h1]; rfl
    · rw [if_neg h1, if_neg h1]
      by_cases h2 : r.length ≤ maxLength
      · rw [if_pos h2, if_pos h2]
        have hr : parseIndicator r = none := by
          apply hH
          rw [splitBodiesLoop, if_neg h1, if_pos h2]
          simp
        simp [stripIndicator, hr]
      · rw [if_neg h2, if_neg h2]
        dsimp only
        rw [if_pos hT]
        have hH' : ∀ b ∈ splitBodiesLoop maxLength fuel
            (jsTrim (r.drop (computeSplitIndex r maxLength))), parseIndicator b = none := by
          intro b hb
          apply hH
          rw [splitBodiesLoop, if_neg h1, if_neg h2]
          dsimp only
          exact List.mem_cons_of_mem _ hb
        rw [List.map_cons, stripIndicator_header, ih _ (i + 1) hH']

theorem addPartHeaders_eq_numberedFrom (total : Nat) :
    ∀ (cs : List (List Char)) (j : Nat),
      addPartHeaders total j cs = numberedFrom total (j + 1) (cs.map stripIndicator) := by
  intro cs
  induction cs with
  | nil => intro j; rfl
  | cons c rest ih =>
    intro j
    rw [addPartHeaders, List.map_cons, numberedFrom, ih (j + 1)]

theorem addPartHeaders_length (total : Nat) :
    ∀ (cs : List (List Char)) (j : Nat), (addPartHeaders total j cs).length = cs.length := by
  intro cs
  induction cs with
  | nil => intro j; rfl
  | cons c rest ih =>
    intro j
    rw [addPartHeaders]
    simp [ih]

theorem addPartHeaders_getElem? (total : Nat) :
    ∀ (cs : List (List Char)) (j i : Nat),
      (addPartHeaders total j cs)[i]? =
        (cs[i]?).map fun c => partHeader (j + i + 1) total ++ stripIndicator c := by
  intro cs
  induction cs with
  | nil => intro j i; simp [addPartHeaders]
  | cons c rest ih =>
    intro j i
    cases i with
    | zero => simp [addPartHeaders]
    | succ i' =>
      rw [addPartHeaders]
      simp only [List.getElem?_cons_succ]
      rw [ih (j + 1) i']
      have e : j + 1 + i' + 1 = j + (i' + 1) + 1 := by omega
      rw [e]

theorem splitMessage_eq_loop (message : List Char) (maxLength : Nat)
    (h2 : maxLength < message.length) :
    splitMessage message maxLength =
      splitLoop message.length maxLength message.length message 0 := by
  have hne : message ≠ [] := by
    intro h
    subst h
    simp at h2
  rw [splitMessage, if_neg hne, if_neg (by omega)]

theorem splitBodies_eq_loop (message : List Char) (maxLength : Nat)
    (h2 : maxLength < message.length) :
    splitBodies message maxLength = splitBodiesLoop maxLength message.length message := by
  have hne : message ≠ [] := by
    intro h
    subst h
    simp at h2
  rw [splitBodies, if_neg hne, if_neg (by omega)]

/-! ### Evaluation of the splitter on runs of a non-whitespace letter -/

theorem dropWhile_replicate_a (k : Nat) :
    (List.replicate k 'a').dropWhile jsIsWs = List.replicate k 'a' := by
  cases k with
  | zero => rfl
  | succ k =>
    rw [List.replicate_succ, List.dropWhile_cons]
    simp [show jsIsWs 'a' = false from by decide]

theorem jsTrim_replicate_a (k : Nat) :
    jsTrim (List.replicate k 'a') = List.replicate k 'a' := by
  rw [jsTrim, dropWhile_replicate_a, List.reverse_replicate, dropWhile_replicate_a,
    List.reverse_replicate]

theorem matchLen_replicate_a (k : Nat) : matchLen (List.replicate k 'a') = none := by
  cases k with
  | zero => rfl
  | succ k =>
    cases k with
    | zero => rfl
    | succ k =>
      rw [List.replicate_succ, List.replicate_succ, matchLen]
      rw [if_neg (by decide), if_neg (by decide)]

theorem findMatch_replicate_a (k : Nat) : findMatch (List.replicate k 'a') = none := by
  induction k with
  | zero => rfl
  | succ k ih =>
    rw [List.replicate_succ, findMatch]
    have h1 : matchLen ('a' :: List.replicate k 'a') = none := by
      have h := matchLen_replicate_a (k + 1)
      rwa [List.replicate_succ] at h
    rw [h1, ih]

theorem lastIdxOf_replicate_a (k : Nat) :
    lastIdxOf '\n' (List.replicate k 'a') = none := by
  induction k with
  | zero => rfl
  | succ k ih =>
    rw [List.replicate_succ, lastIdxOf, ih]
    rw [if_neg (by decide)]

theorem computeSplitIndex_replicate_a (n : Nat) (h : 4096 < n) :
    computeSplitIndex (List.replicate n 'a') 4096 = 4096 := by
  have hmin : min 4096 n = 4096 := by omega
  have hmin2 : min 200 (4096 : Nat) = 200 := by norm_num
  rw [computeSplitIndex, List.take_replicate, hmin, List.length_replicate, hmin2,
    List.drop_replicate, findMatch_replicate_a, lastIdxOf_replicate_a]

theorem splitMessage_replicate_two (n : Nat) (h1 : 4096 < n) (h2 : n ≤ 8192) :
    splitMessage (List.replicate n 'a') 4096 =
      [headerI 1 2 ++ List.replicate 4096 'a', List.replicate (n - 4096) 'a'] := by
  have hne : List.replicate n 'a' ≠ [] := by
    simp only [ne_eq, List.replicate_eq_nil_iff]
    omega
  have hlen : (List.replicate n 'a').length = n := List.length_replicate n 'a'
  rw [splitMessage, if_neg hne, if_neg (by omega), hlen]
  obtain ⟨m, rfl⟩ : ∃ m, n = m + 1 := ⟨n - 1, by omega⟩
  rw [splitLoop, if_neg hne, if_neg (by omega)]
  dsimp only
  rw [computeSplitIndex_replicate_a _ (by omega)]
  rw [List.take_replicate, show min 4096 (m + 1) = 4096 from by omega, jsTrim_replicate_a]
  rw [List.drop_replicate, jsTrim_replicate_a]
  rw [show (m + 1 + 4096 - 1) / 4096 = 2 from by omega]
  rw [if_pos (by norm_num : (1 : Nat) < 2)]
  obtain ⟨p, hp⟩ : ∃ p, m = p + 1 := ⟨m - 1, by omega⟩
  have hne2 : List.replicate (m + 1 - 4096) 'a' ≠ [] := by
    simp only [ne_eq, List.replicate_eq_nil_iff]
    omega
  subst hp
  rw [splitLoop, if_neg hne2, if_pos (by rw [List.length_replicate]; omega)]

theorem splitWithIndicators_replicate_two (n : Nat) (h1 : 4096 < n) (h2 : n ≤ 8192) :
    splitMessageWithIndicators (List.replicate n 'a') 4096 =
      [partHeader 1 2 ++ List.replicate 4096 'a',
       partHeader 2 2 ++ stripIndicator (List.replicate (n - 4096) 'a')] := by
  rw [splitMessageWithIndicators, splitMessage_replicate_two n h1 h2]
  rw [if_neg (by norm_num)]
  rw [addPartHeaders, addPartHeaders, addPartHeaders]
  rw [stripIndicator_header]
  norm_num

theorem parseIndicator_replicate_a (k : Nat) :
    parseIndicator (List.replicate k 'a') = none := by
  cases k with
  | zero => rfl
  | succ k =>
    rw [List.replicate_succ, parseIndicator]
    rw [if_neg (by decide)]

theorem stripIndicator_replicate_a (k : Nat) :
    stripIndicator (List.replicate k 'a') = List.replicate k 'a' := by
  rw [stripIndicator, parseIndicator_replicate_a]
  rfl

theorem partHeader_one_two_length : (partHeader 1 2).length = 12 := by decide

theorem partHeader_two_two_length : (partHeader 2 2).length = 12 := by decide

/-! ### Send pipeline lemmas -/

theorem delayedTraces_cons (f : List Char → List ChunkEvent) (c : List Char)
    (d : List Char) (rest : List (List Char)) :
    delayedTraces f (c :: d :: rest) = f c ++ ChunkEvent.delay 500 :: delayedTraces f (d :: rest) := rfl

theorem sendLoop_spec (credsOk : Bool) (http : List Char → Except ErrMsg Unit) :
    ∀ chunks : List (List Char),
      ((sendLoop credsOk http chunks).2 = Except.ok () →
        (∀ c ∈ chunks, (sendTextMessage credsOk c http).2 = Except.ok ())
        ∧ (sendLoop credsOk http chunks).1 =
            delayedTraces (fun c => (sendTextMessage credsOk c http).1) chunks)
    ∧ (∀ e, (sendLoop credsOk http chunks).2 = Except.error e →
        ∃ pre c suf, chunks = pre ++ c :: suf
          ∧ (∀ c' ∈ pre, (sendTextMessage credsOk c' http).2 = Except.ok ())
          ∧ (sendTextMessage credsOk c http).2 = Except.error e
          ∧ (sendLoop credsOk http chunks).1 =
              delayedTraces (fun x => (sendTextMessage credsOk x http).1) (pre ++ [c])) := by
  intro chunks
  induction chunks with
  | nil =>
    constructor
    · intro _
      exact ⟨by simp, rfl⟩
    · intro e he
      simp [sendLoop] at he
  | cons c rest ih =>
    cases rest with
    | nil =>
      rw [sendLoop]
      constructor
      · intro hok
        refine ⟨?_, rfl⟩
        intro x hx
        rw [List.mem_singleton] at hx
        subst hx
        exact hok
      · intro e he
        exact ⟨[], c, [], by simp, by simp, he, rfl⟩
    | cons d t =>
      rw [sendLoop]
      cases hs : (sendTextMessage credsOk c http).2 with
      | error e0 =>
        dsimp only
        constructor
        · intro hok
          cases hok
        · intro e he
          injection he with he
          subst he
          refine ⟨[], c, d :: t, by simp, by simp, hs, rfl⟩
      | ok u =>
        cases u
        dsimp only
        constructor
        · intro hok
          obtain ⟨hall, hevs⟩ := ih.1 hok
          refine ⟨?_, ?_⟩
          · intro x hx
            rcases List.mem_cons.mp hx with hx | hx
            · subst hx
              exact hs
            · exact hall x hx
          · rw [delayedTraces_cons, hevs]
        · intro e he
          obtain ⟨pre, cc, suf, hsplit, hpre, hcc, hevs⟩ := ih.2 e he
          refine ⟨c :: pre, cc, suf, by rw [List.cons_append, hsplit], ?_, hcc, ?_⟩
          · intro x hx
            rcases List.mem_cons.mp hx with hx | hx
            · subst hx
              exact hs
            · exact hpre x hx
          · rw [List.cons_append]
            obtain ⟨y, ys, hpp⟩ : ∃ y ys, pre ++ [cc] = y :: ys := by
              cases pre with
              | nil => exact ⟨cc, [], rfl⟩
              | cons a b => exact ⟨a, b ++ [cc], rfl⟩
            rw [hpp, delayedTraces_cons, ← hpp, hevs]

theorem sendTextMessage_http_validated (credsOk : Bool) (c : List Char)
    (http : List Char → Except ErrMsg Unit) (b : List Char)
    (hb : ChunkEvent.http b ∈ (sendTextMessage credsOk c http).1) :
    validateMessageLength b = none := by
  rw [sendTextMessage] at hb
  by_cases hc : credsOk = false
  · rw [if_pos hc] at hb
    simp at hb
  · rw [if_neg hc] at hb
    cases hv : validateMessageLength c with
    | some e =>
      rw [hv] at hb
      simp at hb
    | none =>
      rw [hv] at hb
      cases hh : http c with
      | ok u =>
        rw [hh] at hb
        dsimp only at hb
        rw [List.mem_singleton] at hb
        injection hb with hb
        subst hb
        exact hv
      | error e =>
        rw [hh] at hb
        dsimp only at hb
        rw [List.mem_singleton] at hb
        injection hb with hb
        subst hb
        exact hv

theorem sendLoop_http_validated (credsOk : Bool) (http : List Char → Except ErrMsg Unit) :
    ∀ (chunks : List (List Char)) (b : List Char),
      ChunkEvent.http b ∈ (sendLoop credsOk http chunks).1 →
      validateMessageLength b = none := by
  intro chunks
  induction chunks with
  | nil =>
    intro b hb
    simp [sendLoop] at hb
  | cons c rest ih =>
    intro b hb
    cases rest with
    | nil =>
      rw [sendLoop] at hb
      exact sendTextMessage_http_validated credsOk c http b hb
    | cons d t =>
      rw [sendLoop] at hb
      cases hs : (sendTextMessage credsOk c http).2 with
      | error e0 =>
        rw [hs] at hb
        dsimp only at hb
        exact sendTextMessage_http_validated credsOk c http b hb
      | ok u =>
        cases u
        rw [hs] at hb
        dsimp only at hb
        rw [List.mem_append] at hb
        rcases hb with hb | hb
        · exact sendTextMessage_http_validated credsOk c http b hb
        · rw [List.mem_cons] at hb
          rcases hb with hb | hb
          · cases hb
          · exact ih b hb

theorem sendSplitting_http_validated (enabled credsOk : Bool) (message : List Char)
    (http : List Char → Except ErrMsg Unit) (b : List Char)
    (hb : ChunkEvent.http b ∈ (sendTextMessageWithSplitting enabled credsOk message http).1) :
    validateMessageLength b = none := by
  rw [sendTextMessageWithSplitting] at hb
  by_cases hcond : enabled = false ∨ message.length ≤ 4096
  · rw [if_pos hcond] at hb
    exact sendTextMessage_http_validated credsOk message http b hb
  · rw [if_neg hcond] at hb
    dsimp only at hb
    by_cases hone : (splitMessageWithIndicators message 4096).length = 1
    · rw [if_pos hone] at hb
      exact sendTextMessage_http_validated credsOk _ http b hb
    · rw [if_neg hone] at hb
      exact sendLoop_http_validated credsOk http _ b hb

/-! ### Retry wrapper lemmas -/

theorem retryExecAux_fail {ε α : Type} (d : Nat) (retryable : ε → Bool)
    (outcome : Nat → Except ε α)
    (hfail : ∀ k, ∃ e, outcome k = Except.error e ∧ retryable e = true) :
    ∀ r k, (retryExecAux d retryable outcome k r).1 = failTrace d k r
      ∧ ∃ e, (retryExecAux d retryable outcome k r).2 = Except.error e := by
  intro r
  induction r with
  | zero =>
    intro k
    obtain ⟨e, he, _⟩ := hfail k
    rw [retryExecAux, he]
    exact ⟨rfl, e, rfl⟩
  | succ r ih =>
    intro k
    obtain ⟨e, he, hre⟩ := hfail k
    rw [retryExecAux, he]
    dsimp only
    rw [if_pos hre]
    obtain ⟨h1, e2, h2⟩ := ih (k + 1)
    constructor
    · dsimp only
      rw [h1, failTrace]
    · exact ⟨e2, h2⟩

theorem countAttempts_failTrace (d : Nat) :
    ∀ r k, countAttempts (failTrace d k r) = r + 1 := by
  intro r
  induction r with
  | zero => intro k; rfl
  | succ r ih =>
    intro k
    rw [failTrace, countAttempts, List.countP_cons, List.countP_cons]
    have h := ih (k + 1)
    rw [countAttempts] at h
    rw [h]
    simp

theorem failTrace_getLast (d : Nat) :
    ∀ r k, (failTrace d k r).getLast? = some (RetryEvent.attempt (k + r)) := by
  intro r
  induction r with
  | zero => intro k; rfl
  | succ r ih =>
    intro k
    have h := ih (k + 1)
    rw [failTrace, List.getLast?_cons_cons]
    obtain ⟨y, ys, hr⟩ : ∃ y ys, failTrace d (k + 1) r = y :: ys := by
      cases r with
      | zero => exact ⟨RetryEvent.attempt (k + 1), [], rfl⟩
      | succ r' =>
        rw [failTrace]
        exact ⟨RetryEvent.attempt (k + 1), _, rfl⟩
    rw [hr, List.getLast?_cons_cons, ← hr, h]
    have e : k + 1 + r = k + (r + 1) := by omega
    rw [e]

/-! ### Claim theorems -/

/-- C1: the claim says every chunk produced by splitMessageWithIndicators has
length at most `maxLength` after its `[Part i/N]` header is prepended.  The
code violates this — and thereby its own module documentation ("max 4096
chars each", "chunks that fit within WhatsApp limits"): an 8192-character
message split at the 4096 default of the source yields chunks of length 4108
(12-character `[Part 1/2]` header plus a 4096-character body), which
`validateMessageLength` then rejects at send time. -/
theorem chunk_exceeds_limit_after_header :
    ∃ c ∈ splitMessageWithIndicators msg8192 4096, 4096 < c.length := by
  refine ⟨partHeader 1 2 ++ List.replicate 4096 'a', ?_, ?_⟩
  · rw [msg8192, splitWithIndicators_replicate_two 8192 (by norm_num) (by norm_num)]
    exact List.mem_cons_self _ _
  · rw [List.length_append, List.length_replicate, partHeader_one_two_length]
    norm_num

/-- C2 counterexample: on a message whose own content contains an internal
`[1/2]` marker, the header-stripping pass of splitMessageWithIndicators also
deletes that marker from the body of the final chunk, so concatenating the
bodies (headers stripped) loses the characters `[1/2]` — not a
whitespace-only difference.  The claimed reconstruction property is false. -/
theorem reconstruction_fails_on_headerlike_text :
    ¬ WsInterleaved cexC2 ((splitMessageWithIndicators cexC2 10).map stripPart) := by
  intro h
  have hf := wsInterleaved_filter h
  exact absurd hf (by decide)

/-- C2 amended: for text longer than `maxLength` (with at least two chunks
produced, and no chunk BODY itself beginning with an internal
`[digits/digits]` + blank-line marker), splitMessageWithIndicators returns
exactly the bodies of the cut segments, each prefixed with a
`[Part i/N]` header in which `N` is the actual chunk count, and the text is
the bodies interleaved with the whitespace trimmed at the cut points. -/
theorem splitWithIndicators_reconstructs (text : List Char) (maxLength : Nat)
    (h1 : 1 ≤ maxLength) (h2 : maxLength < text.length)
    (hk : 2 ≤ (splitMessage text maxLength).length)
    (hH : ∀ b ∈ splitBodies text maxLength, parseIndicator b = none) :
    splitMessageWithIndicators text maxLength =
      numberedFrom (splitBodies text maxLength).length 1 (splitBodies text maxLength)
    ∧ WsInterleaved text (splitBodies text maxLength) := by
  have hT : 1 < (text.length + maxLength - 1) / maxLength := by
    have hge : 2 * maxLength ≤ text.length + maxLength - 1 := by omega
    have hdiv : 2 * maxLength / maxLength ≤ (text.length + maxLength - 1) / maxLength :=
      Nat.div_le_div_right hge
    rw [Nat.mul_div_cancel 2 (by omega : 0 < maxLength)] at hdiv
    omega
  have hbodies := splitBodies_eq_loop text maxLength h2
  have hmsg := splitMessage_eq_loop text maxLength h2
  have hstrip : (splitMessage text maxLength).map stripIndicator = splitBodies text maxLength := by
    rw [hmsg, hbodies]
    refine splitLoop_map_strip text.length maxLength hT text.length text 0 ?_
    rw [← hbodies]
    exact hH
  have hlen : (splitMessage text maxLength).length = (splitBodies text maxLength).length := by
    rw [← hstrip, List.length_map]
  constructor
  · rw [splitMessageWithIndicators]
    rw [if_neg (by omega)]
    rw [addPartHeaders_eq_numberedFrom, hstrip, hlen]
  · have hinterleaved :=
      splitBodiesLoop_interleaved maxLength h1 text.length text (le_refl _)
    rw [← hbodies] at hinterleaved
    exact hinterleaved

/-- C2 witness: concrete instance at a 25-character message and
`maxLength = 10`. -/
theorem splitWithIndicators_reconstructs_witness :
    splitMessageWithIndicators msg25 10 =
      numberedFrom (splitBodies msg25 10).length 1 (splitBodies msg25 10)
    ∧ WsInterleaved msg25 (splitBodies msg25 10) :=
  splitWithIndicators_reconstructs msg25 10 (by decide) (by decide) (by decide) (by decide)

/-- C3 counterexample: for the empty string (length 0 ≤ any maxLength) the
`!message` guard returns an empty array, not a single chunk equal to the
text, so the claim fails at `text = ""`. -/
theorem splitMessage_empty_not_single :
    splitMessage [] 4096 = [] ∧ splitMessage [] 4096 ≠ [[]] := by
  constructor
  · rfl
  · decide

/-- C3 amended: for every NON-EMPTY text with length at most `maxLength`,
splitMessage returns exactly one chunk equal to the text, unmodified and
with no header added. -/
theorem splitMessage_short_identity (text : List Char) (maxLength : Nat)
    (hne : text ≠ []) (hle : text.length ≤ maxLength) :
    splitMessage text maxLength = [text] := by
  rw [splitMessage, if_neg hne, if_pos hle]

/-- C3 witness: concrete instance. -/
theorem splitMessage_short_identity_witness :
    splitMessage ('h' :: 'i' :: []) 4096 = [('h' :: 'i' :: [])] :=
  splitMessage_short_identity ('h' :: 'i' :: []) 4096 (by decide) (by decide)

/-- C4 counterexample: the `searchArea.match` call in the source returns the
FIRST sentence boundary in the lookback window, not the latest: on
"a. b. cccccc" with `maxLength = 10` the code cuts at 3 while the claimed
latest-boundary cut is 6.  And the line-break fallback is accepted only
STRICTLY after 80% of `maxLength`: on "abcdefgh\nxyz" the line break at
index 8 = 0.8·10 is rejected by the code (cut at 10) but accepted by the
claimed "at or after" reading (cut at 9). -/
theorem splitIndex_differs_from_claim :
    computeSplitIndex cexC4a 10 = 3 ∧ claimSplitIndex cexC4a 10 = 6
    ∧ computeSplitIndex cexC4b 10 = 10 ∧ claimSplitIndex cexC4b 10 = 9 := by
  decide

/-- C4 amended: in every split iteration on remaining text longer than
`maxLength`, the cut point is the end of the EARLIEST sentence-ending
boundary match within the last 200 characters of the `maxLength` prefix;
if no such boundary exists, the cut is one past the last line break of the
prefix provided that break lies STRICTLY after 80% of `maxLength`
(`4·maxLength < 5·index`); otherwise the cut is exactly at `maxLength`. -/
theorem computeSplitIndex_characterization (remaining : List Char) (maxLength : Nat)
    (h2 : maxLength < remaining.length) :
    (∃ i len,
        matchLen (((remaining.take maxLength).drop (maxLength - min 200 maxLength)).drop i)
          = some len
        ∧ (∀ j < i,
            matchLen (((remaining.take maxLength).drop (maxLength - min 200 maxLength)).drop j)
              = none)
        ∧ computeSplitIndex remaining maxLength = maxLength - min 200 maxLength + i + len)
    ∨ ((∀ j : Nat,
          matchLen (((remaining.take maxLength).drop (maxLength - min 200 maxLength)).drop j)
            = none)
        ∧ ((∃ lbi, (remaining.take maxLength)[lbi]? = some '\n'
              ∧ (∀ j : Nat, lbi < j → (remaining.take maxLength)[j]? ≠ some '\n')
              ∧ ((4 * maxLength < 5 * lbi ∧ computeSplitIndex remaining maxLength = lbi + 1)
                  ∨ (5 * lbi ≤ 4 * maxLength ∧ computeSplitIndex remaining maxLength = maxLength)))
            ∨ ((∀ j : Nat, (remaining.take maxLength)[j]? ≠ some '\n')
                ∧ computeSplitIndex remaining maxLength = maxLength))) := by
  have hcl : (remaining.take maxLength).length = maxLength := by
    rw [List.length_take]
    omega
  rw [computeSplitIndex, hcl]
  cases hF : findMatch ((remaining.take maxLength).drop (maxLength - min 200 maxLength)) with
  | some p =>
    obtain ⟨i, len⟩ := p
    obtain ⟨g1, g2⟩ := findMatch_eq_some hF
    left
    exact ⟨i, len, g1, g2, rfl⟩
  | none =>
    right
    refine ⟨findMatch_eq_none hF, ?_⟩
    cases hL : lastIdxOf '\n' (remaining.take maxLength) with
    | some lbi =>
      left
      obtain ⟨g1, g2⟩ := lastIdxOf_eq_some hL
      refine ⟨lbi, g1, g2, ?_⟩
      by_cases hcmp : 4 * maxLength < 5 * lbi
      · left
        refine ⟨hcmp, ?_⟩
        dsimp only
        rw [if_pos hcmp]
      · right
        refine ⟨by omega, ?_⟩
        dsimp only
        rw [if_neg hcmp]
    | none =>
      right
      exact ⟨lastIdxOf_eq_none hL, rfl⟩

/-- C4 witness: concrete instance of the characterization on "a. b. cccccc"
with `maxLength = 10`. -/
theorem computeSplitIndex_characterization_witness :
    (∃ i len,
        matchLen (((cexC4a.take 10).drop (10 - min 200 10)).drop i) = some len
        ∧ (∀ j < i, matchLen (((cexC4a.take 10).drop (10 - min 200 10)).drop j) = none)
        ∧ computeSplitIndex cexC4a 10 = 10 - min 200 10 + i + len)
    ∨ ((∀ j : Nat, matchLen (((cexC4a.take 10).drop (10 - min 200 10)).drop j) = none)
        ∧ ((∃ lbi, (cexC4a.take 10)[lbi]? = some '\n'
              ∧ (∀ j : Nat, lbi < j → (cexC4a.take 10)[j]? ≠ some '\n')
              ∧ ((4 * 10 < 5 * lbi ∧ computeSplitIndex cexC4a 10 = lbi + 1)
                  ∨ (5 * lbi ≤ 4 * 10 ∧ computeSplitIndex cexC4a 10 = 10)))
            ∨ ((∀ j : Nat, (cexC4a.take 10)[j]? ≠ some '\n')
                ∧ computeSplitIndex cexC4a 10 = 10))) :=
  computeSplitIndex_characterization cexC4a 10 (by decide)

/-- C5 counterexample: re-chunking text that already carries a
`[Part 1/2]` header from an earlier splitMessageWithIndicators pass emits a
chunk that begins with a fresh `[Part 1/3]` header immediately followed by
the old `[Part 1/2]` header: the strip regex `/^\[\d+\/\d+\]\n\n/` does not
match the `[Part i/N]` format, so the old header is NOT stripped and a chunk
carries two headers. -/
theorem rechunk_emits_double_header :
    ∃ c ∈ splitMessageWithIndicators cexC5 20, hasTwoPartHeaders c = true := by
  decide

/-- C5 amended: the only header stripped before the new `[Part i/N]` header
is prepended is the internal `[i/N]` indicator added by splitMessage in the
same pass: any chunk of the form `[n/total]\n\n` ++ body is emitted as
`[Part i+1/k]\n\n` ++ body, carrying exactly one header.  Headers in the
`[Part i/N]` format from an earlier pass are not stripped (see the
counterexample). -/
theorem indicator_stripped_before_part_header (message : List Char) (maxLength : Nat)
    (hk : 2 ≤ (splitMessage message maxLength).length)
    (i n total : Nat) (s : List Char)
    (hc : (splitMessage message maxLength)[i]? = some (headerI n total ++ s)) :
    (splitMessageWithIndicators message maxLength)[i]? =
      some (partHeader (i + 1) (splitMessage message maxLength).length ++ s) := by
  rw [splitMessageWithIndicators]
  rw [if_neg (by omega)]
  rw [addPartHeaders_getElem? _ _ 0 i, hc]
  rw [Option.map_some']
  rw [stripIndicator_header]
  have e : 0 + i + 1 = i + 1 := by omega
  rw [e]

/-- C5 witness: the first chunk of the 25-character message split at
`maxLength = 10` carries the internal indicator `[1/3]` and is emitted with
a single `[Part 1/3]` header. -/
theorem indicator_stripped_before_part_header_witness :
    (splitMessageWithIndicators msg25 10)[0]? =
      some (partHeader (0 + 1) (splitMessage msg25 10).length ++ List.replicate 10 'a') :=
  indicator_stripped_before_part_header msg25 10 (by decide) 0 1 3
    (List.replicate 10 'a') (by decide)

/-- C6: when a message longer than the 4096-character channel limit is sent
with splitting enabled (and the splitter yields more than one chunk), the
chunks are sent strictly sequentially in order — on full success the event
trace is exactly the chunk sends interleaved with a fixed 500 ms delay
between consecutive chunks and none after the last; and if the send of any
chunk
fails, the chunks after it are not sent and the failure propagates to the
caller as the result of sendTextMessageWithSplitting. -/
theorem sendSplitting_sequential (message : List Char)
    (http : List Char → Except ErrMsg Unit)
    (hlen : 4096 < message.length)
    (hk : 1 < (splitMessageWithIndicators message 4096).length) :
    ((sendTextMessageWithSplitting true true message http).2 = Except.ok () →
      (∀ c ∈ splitMessageWithIndicators message 4096,
          (sendTextMessage true c http).2 = Except.ok ())
      ∧ (sendTextMessageWithSplitting true true message http).1 =
          delayedTraces (fun c => (sendTextMessage true c http).1)
            (splitMessageWithIndicators message 4096))
    ∧ (∀ e, (sendTextMessageWithSplitting true true message http).2 = Except.error e →
      ∃ pre c suf, splitMessageWithIndicators message 4096 = pre ++ c :: suf
        ∧ (∀ c' ∈ pre, (sendTextMessage true c' http).2 = Except.ok ())
        ∧ (sendTextMessage true c http).2 = Except.error e
        ∧ (sendTextMessageWithSplitting true true message http).1 =
            delayedTraces (fun x => (sendTextMessage true x http).1) (pre ++ [c])) := by
  have hb : sendTextMessageWithSplitting true true message http =
      sendLoop true http (splitMessageWithIndicators message 4096) := by
    rw [sendTextMessageWithSplitting]
    rw [if_neg (by rw [not_or]; exact ⟨by simp, by omega⟩)]
    rw [if_neg (by omega)]
  rw [hb]
  exact sendLoop_spec true http (splitMessageWithIndicators message 4096)

/-- C6 witness: concrete instance at a 4097-character message over a
transport that accepts every request. -/
theorem sendSplitting_sequential_witness :
    ((sendTextMessageWithSplitting true true msg4097 httpOk).2 = Except.ok () →
      (∀ c ∈ splitMessageWithIndicators msg4097 4096,
          (sendTextMessage true c httpOk).2 = Except.ok ())
      ∧ (sendTextMessageWithSplitting true true msg4097 httpOk).1 =
          delayedTraces (fun c => (sendTextMessage true c httpOk).1)
            (splitMessageWithIndicators msg4097 4096))
    ∧ (∀ e, (sendTextMessageWithSplitting true true msg4097 httpOk).2 = Except.error e →
      ∃ pre c suf, splitMessageWithIndicators msg4097 4096 = pre ++ c :: suf
        ∧ (∀ c' ∈ pre, (sendTextMessage true c' httpOk).2 = Except.ok ())
        ∧ (sendTextMessage true c httpOk).2 = Except.error e
        ∧ (sendTextMessageWithSplitting true true msg4097 httpOk).1 =
            delayedTraces (fun x => (sendTextMessage true x httpOk).1) (pre ++ [c])) :=
  sendSplitting_sequential msg4097 httpOk
    (by rw [msg4097, List.length_replicate]; norm_num)
    (by rw [msg4097, splitWithIndicators_replicate_two 4097 (by norm_num) (by norm_num)]
        norm_num)

/-- C7: when the HaiIndexer circuit breaker is OPEN and the reset timeout
has not yet elapsed, queryHaiIndexer does not invoke the protected backend
operation (the invocation flag is false) and resolves — not rejects — to the
configured "service busy" fallback answer object. -/
theorem queryHaiIndexer_open_fallback (resetTimeoutMs : Nat) (b : BreakerData)
    (now : Nat) (backendOutcome : Option QueryResult)
    (hopen : b.state = BreakerState.opened)
    (htime : now < b.openedAt + resetTimeoutMs) :
    queryHaiIndexer true resetTimeoutMs b now backendOutcome =
      Except.ok (fallbackBusy, false) := by
  rw [queryHaiIndexer, if_neg (by simp)]
  rw [breakerExecute.eq_def, if_pos hopen, if_neg (by omega)]

/-- C7 witness: concrete breaker opened at time 1000 with a 30000 ms reset
timeout, queried at time 2000. -/
theorem queryHaiIndexer_open_fallback_witness :
    queryHaiIndexer true 30000 ⟨BreakerState.opened, 5, 0, 1000⟩ 2000 none =
      Except.ok (fallbackBusy, false) :=
  queryHaiIndexer_open_fallback 30000 ⟨BreakerState.opened, 5, 0, 1000⟩ 2000 none
    rfl (by norm_num)

/-- C8: the retry predicate of the outbound WhatsApp send returns true for an
error argument exactly when it is an abort (timeout), connection-refused, or
connection-timed-out error; with no error it returns true for a response
exactly when the status is 429 or 5xx (500–599); with neither it returns
false; in particular every 4xx status other than 429 is not retried. -/
theorem shouldRetry_characterization (e : JsErr) (r : Option Nat) (status : Nat) :
    (shouldRetry (some e) r = true ↔
      (e.name = abortErrName ∨ e.code = econnRefused ∨ e.code = etimedOut))
    ∧ (shouldRetry none (some status) = true ↔
      (status = 429 ∨ (500 ≤ status ∧ status < 600)))
    ∧ shouldRetry none none = false
    ∧ (400 ≤ status → status < 500 → status ≠ 429 →
        shouldRetry none (some status) = false) := by
  refine ⟨?_, ?_, rfl, ?_⟩
  · rw [shouldRetry]
    simp [Bool.or_eq_true, beq_iff_eq]
    tauto
  · rw [shouldRetry]
    simp [Bool.or_eq_true, Bool.and_eq_true, beq_iff_eq, decide_eq_true_eq]
  · intro h1 h2 h3
    rw [shouldRetry]
    have e1 : (status == 429) = false := by
      simp [beq_iff_eq]
      omega
    have e2 : decide (500 ≤ status) = false := by
      simp
      omega
    rw [e1, e2]
    rfl

/-- C8 witness: a 404 response (4xx other than 429) is not retried. -/
theorem shouldRetry_characterization_witness :
    shouldRetry none (some 404) = false :=
  (shouldRetry_characterization ⟨abortErrName, econnRefused⟩ none 404).2.2.2
    (by norm_num) (by norm_num) (by norm_num)

/-- C9: for every retry policy, the resilient call wrapper invokes an
operation that always fails with a retryable error exactly
`maxRetries + 1` times, the last recorded event is the final invocation (so
no retry delay follows the final attempt), and the last failure propagates. -/
theorem retryExec_attempt_count {ε α : Type} (maxRetries retryDelayMs : Nat)
    (retryable : ε → Bool) (outcome : Nat → Except ε α)
    (hfail : ∀ k, ∃ e, outcome k = Except.error e ∧ retryable e = true) :
    countAttempts (retryExec maxRetries retryDelayMs retryable outcome).1 = maxRetries + 1
    ∧ (retryExec maxRetries retryDelayMs retryable outcome).1.getLast? =
        some (RetryEvent.attempt maxRetries)
    ∧ ∃ e, (retryExec maxRetries retryDelayMs retryable outcome).2 = Except.error e := by
  obtain ⟨h1, h2⟩ := retryExecAux_fail retryDelayMs retryable outcome hfail maxRetries 0
  refine ⟨?_, ?_, ?_⟩
  · rw [retryExec, h1, countAttempts_failTrace]
  · rw [retryExec, h1, failTrace_getLast]
    simp
  · rw [retryExec]
    exact h2

/-- C9 witness: an always-failing operation under `maxRetries = 2` is
invoked exactly 3 times. -/
theorem retryExec_attempt_count_witness :
    countAttempts (retryExec 2 100 (fun _ : Nat => true)
        (fun _ => (Except.error 7 : Except Nat Unit))).1 = 2 + 1
    ∧ (retryExec 2 100 (fun _ : Nat => true)
        (fun _ => (Except.error 7 : Except Nat Unit))).1.getLast? =
        some (RetryEvent.attempt 2)
    ∧ ∃ e, (retryExec 2 100 (fun _ : Nat => true)
        (fun _ => (Except.error 7 : Except Nat Unit))).2 = Except.error e :=
  retryExec_attempt_count 2 100 (fun _ : Nat => true)
    (fun _ => (Except.error 7 : Except Nat Unit)) (fun _ => ⟨7, rfl, rfl⟩)

/-- C10: sendTextMessage throws before issuing any HTTP request whenever its
message is empty (not a non-empty string) or longer than 4096 characters:
the event list is empty and the result is an error.  Moreover the guard
applies to each chunk as actually sent, its prepended header included: every
HTTP request body issued anywhere in sendTextMessageWithSplitting has passed
validateMessageLength. -/
theorem sendTextMessage_guard (credsOk : Bool) (message : List Char)
    (http : List Char → Except ErrMsg Unit)
    (h : message = [] ∨ 4096 < message.length) :
    ((sendTextMessage credsOk message http).1 = []
      ∧ ∃ e, (sendTextMessage credsOk message http).2 = Except.error e)
    ∧ ∀ (enabled credsOk2 : Bool) (msg2 : List Char)
        (http2 : List Char → Except ErrMsg Unit) (b : List Char),
        ChunkEvent.http b ∈ (sendTextMessageWithSplitting enabled credsOk2 msg2 http2).1 →
        validateMessageLength b = none := by
  constructor
  · rw [sendTextMessage]
    by_cases hc : credsOk = false
    · rw [if_pos hc]
      exact ⟨rfl, credsErr, rfl⟩
    · rw [if_neg hc]
      have hv : ∃ e0, validateMessageLength message = some e0 := by
        rcases h with h | h
        · exact ⟨emptyMsgErr, by rw [validateMessageLength, if_pos h]⟩
        · rw [validateMessageLength]
          by_cases hms : message = []
          · exact ⟨emptyMsgErr, by rw [if_pos hms]⟩
          · exact ⟨tooLongErr, by rw [if_neg hms, if_pos h]⟩
      obtain ⟨e0, he0⟩ := hv
      rw [he0]
      exact ⟨rfl, e0, rfl⟩
  · intro enabled credsOk2 msg2 http2 b hb
    exact sendSplitting_http_validated enabled credsOk2 msg2 http2 b hb

/-- C10 witness: the empty message is rejected with no HTTP request. -/
theorem sendTextMessage_guard_witness :
    ((sendTextMessage true [] httpOk).1 = []
      ∧ ∃ e, (sendTextMessage true [] httpOk).2 = Except.error e)
    ∧ ∀ (enabled credsOk2 : Bool) (msg2 : List Char)
        (http2 : List Char → Except ErrMsg Unit) (b : List Char),
        ChunkEvent.http b ∈ (sendTextMessageWithSplitting enabled credsOk2 msg2 http2).1 →
        validateMessageLength b = none :=
  sendTextMessage_guard true [] httpOk (Or.inl rfl)
